import Mathlib

/-!
Verification of the `sqlx_helpers` query-formatting and execution library.

The source (src/src/lib.rs) consists of three pure string formatters
(`format_insert_query`, `format_update_query`, `format_select_string`) that
build SQL text by appending to a mutable `String` buffer and removing trailing
separators with `String::pop` (which drops the last character and is a no-op on
the empty string), plus thin async executors (`insert`, `update`, `select`,
`insert_transaction`) that run the formatted text against a connection pool.

Strings are modelled by Lean `String` (a list of characters, matching Rust's
`String::pop` which removes the last `char`).  Rust's `push(c)` is `String.push`
and `push_str` is `++`; pushing the single-quote character is written as
appending the one-character string `squote`.  The executors are modelled by
passing the database explicitly: the pool is a function from query text to a
driver result, and `insert_transaction` additionally produces the trace of
driver events (begin / execute / commit) it issues, in order.
-/

/-- The one-character string holding a single quote, as pushed by the source
around every value. -/
def squote : String := "'"

/-- Rust's `String::pop`: remove the last character; no-op on the empty
string (Rust returns `None` then and leaves the buffer unchanged). -/
def strPop (s : String) : String := ⟨s.data.dropLast⟩

/-- Source function `format_insert_query`, src/src/lib.rs lines 8-34, translated
statement by statement: each `let query := ...` line is one `push_str`/`push`
or `pop` of the Rust body. -/
def format_insert_query (table_name : String) (indexes : List String)
    (values : List String) : String :=
  let query := "INSERT INTO "
  let query := query ++ table_name
  let query := query ++ " ("
  let query := indexes.foldl (fun q index => (q ++ index).push ',') query
  let query := strPop query
  let query := query ++ ") "
  let query := query ++ "VALUES ("
  let query := values.foldl
    (fun q value => (((q ++ squote) ++ value) ++ squote) ++ ",") query
  let query := strPop query
  let query := query ++ ")"
  query

/-- Source function `format_update_query`, src/src/lib.rs lines 48-71. -/
def format_update_query (table_name : String)
    (updates : List (String × String)) (key : String × String) : String :=
  let query := "UPDATE "
  let query := query ++ table_name
  let query := query ++ " SET "
  let query := updates.foldl
    (fun q update =>
      ((((q ++ update.1) ++ " = ") ++ squote) ++ update.2 ++ squote).push ',')
    query
  let query := strPop query
  let query := query ++ " WHERE "
  let query := query ++ key.1
  let query := query ++ " = "
  let query := ((query ++ squote) ++ key.2) ++ squote
  query

/-- Source function `format_select_string`, src/src/lib.rs lines 84-103. -/
def format_select_string (table_name : String) (fields : List String)
    (key : String × String) : String :=
  let query := "SELECT "
  let query := fields.foldl (fun q field => (q ++ field).push ',') query
  let query := strPop query
  let query := query ++ " FROM "
  let query := query ++ table_name
  let query := query ++ " WHERE "
  let query := query ++ key.1
  let query := query ++ " = "
  let query := ((query ++ squote) ++ key.2) ++ squote
  query

/-! ### Spec-side shape combinators

These render the spec's phrases "c1,c2,...,cn" and "'v1','v2',...,'vn'" so the
formatter output can be compared against the spec's stated shape. -/

/-- A value wrapped in single quotes exactly; no escaping of any kind. -/
def quoteVal (v : String) : String := squote ++ v ++ squote

/-- Comma-separated join, the spec's `c1,c2,...,cn` (empty string on `[]`,
no leading or trailing separator). -/
def commaSep : List String → String
  | [] => ""
  | [x] => x
  | x :: y :: t => x ++ "," ++ commaSep (y :: t)

/-- Plain concatenation of a list of strings. -/
def strJoin : List String → String
  | [] => ""
  | x :: xs => x ++ strJoin xs

/-! ### Executor model

The async executors talk to an external driver.  The driver is modelled
explicitly: a `PgPool` answers `begin`, `execute` and `commit` requests with
`Except String Unit` (an `Except.error` models a driver error, which the Rust
code propagates with `?`).  `insert_transaction` is modelled as returning both
the ordered trace of driver calls it made and its `Result`. -/

/-- One driver call made by `insert_transaction`, in the order issued. -/
inductive DbEvent : Type where
  | beginTxn : DbEvent
  | exec : String → DbEvent
  | commit : DbEvent
deriving DecidableEq, Repr

/-- The connection pool, modelled as an oracle for the three driver calls the
library makes.  `execRes` answers `sqlx::query(&query).execute(..)` for the
given query text. -/
structure PgPool : Type where
  beginRes : Except String Unit
  execRes : String → Except String Unit
  commitRes : Except String Unit

/-- The `for value in values` loop of `insert_transaction`
(src/src/lib.rs lines 129-134): execute one formatted INSERT per row,
stopping with the driver's error at the first failure (`?`). -/
def execLoop (table_name : String) (indexes : List String)
    (execRes : String → Except String Unit) :
    List (List String) → List DbEvent × Except String Unit
  | [] => ([], Except.ok ())
  | value :: rest =>
    let query := format_insert_query table_name indexes value
    match execRes query with
    | Except.error e => ([DbEvent.exec query], Except.error e)
    | Except.ok _ =>
      let r := execLoop table_name indexes execRes rest
      (DbEvent.exec query :: r.1, r.2)

/-- Source function `insert_transaction`, src/src/lib.rs lines 126-139: begin a
transaction on the pool, run the loop, commit only when every statement
succeeded.  The first component is the trace of driver calls issued. -/
def insert_transaction (table_name : String) (indexes : List String)
    (values : List (List String)) (pool : PgPool) :
    List DbEvent × Except String Unit :=
  match pool.beginRes with
  | Except.error e => ([], Except.error e)
  | Except.ok _ =>
    let r := execLoop table_name indexes pool.execRes values
    match r.2 with
    | Except.error e => (DbEvent.beginTxn :: r.1, Except.error e)
    | Except.ok _ =>
      match pool.commitRes with
      | Except.error e =>
          (DbEvent.beginTxn :: r.1 ++ [DbEvent.commit], Except.error e)
      | Except.ok _ =>
          (DbEvent.beginTxn :: r.1 ++ [DbEvent.commit], Except.ok ())

/-- A fetched database row: column name / string value pairs, as accessed by
`sqlx::Row::get` with a column-name index. -/
def Row : Type := List (String × String)

/-- Rust `row.get(field)` for string-typed columns: `none` models the panic on a
missing column or a non-string column. -/
def rowGet (row : Row) (field : String) : Option String :=
  List.lookup field row

/-- The inner `for field in &fields` loop of `select`
(src/src/lib.rs lines 115-118): one string per requested field, in field
order. -/
def getRowValues (row : Row) : List String → Option (List String)
  | [] => some []
  | f :: fs =>
    match rowGet row f with
    | none => none
    | some v =>
      match getRowValues row fs with
      | none => none
      | some rest => some (v :: rest)

/-- The outer `for row in rows` loop of `select` (src/src/lib.rs lines
113-120): one inner vector per fetched row, in fetch order. -/
def collectRows (fields : List String) : List Row → Option (List (List String))
  | [] => some []
  | r :: rs =>
    match getRowValues r fields with
    | none => none
    | some inner =>
      match collectRows fields rs with
      | none => none
      | some rest => some (inner :: rest)

/-- Source function `select`, src/src/lib.rs lines 105-124.  The pool maps the query text
to the driver's `fetch_all` answer; a row-decoding panic is modelled as
`Except.error "row decode failure"`. -/
def select (table_name : String) (fields : List String) (key : String × String)
    (pool : String → Except String (List Row)) :
    Except String (List (List String)) :=
  match pool (format_select_string table_name fields key) with
  | Except.error e => Except.error e
  | Except.ok rows =>
    match collectRows fields rows with
    | none => Except.error "row decode failure"
    | some out => Except.ok out


/-! ### Observations used to state claims about malformed output -/

/-- The single-quote character (the one character of `squote`). -/
def quoteChar : Char := squote.data.headD 'a'

/-- Number of occurrences of the character `c` in `s`. -/
def charCount (s : String) (c : Char) : Nat := s.data.count c

/-- Number of single-quote characters in `s`. -/
def quoteCount (s : String) : Nat := charCount s quoteChar

/-- Whether `pat` occurs as a contiguous substring of `s`. -/
def hasSubstr (pat s : String) : Bool :=
  s.data.tails.any (fun t => pat.data.isPrefixOf t)

/-- A statement corrupted by stray separators, as the spec describes it:
unmatched parentheses, or a doubled or misplaced comma next to a
parenthesis. -/
def malformedSeps (s : String) : Bool :=
  (charCount s '(' != charCount s ')')
    || hasSubstr ",," s
    || hasSubstr "(," s
    || hasSubstr ",)" s

/-- Whether a driver event is the execution of a statement. -/
def isExec : DbEvent → Bool
  | DbEvent.exec _ => true
  | _ => false

/-! ### Concrete driver fixtures used by the witnesses -/

/-- A pool on which every driver call succeeds. -/
def witPool : PgPool :=
  { beginRes := Except.ok ()
    execRes := fun _ => Except.ok ()
    commitRes := Except.ok () }

/-- A pool on which the INSERT for value row `["B"]` fails. -/
def witFailPool : PgPool :=
  { beginRes := Except.ok ()
    execRes := fun q =>
      if q = format_insert_query "book" ["title"] ["B"] then
        Except.error "duplicate key"
      else Except.ok ()
    commitRes := Except.ok () }

/-- A concrete fetched row. -/
def witRow : Row := [("title", "Witcher"), ("author", "Andy")]

/-- A database that answers every SELECT with the single row `witRow`. -/
def witDb : String → Except String (List Row) :=
  fun _ => Except.ok [witRow]

/-! ### String kit -/

theorem str_append_empty (s : String) : s ++ "" = s :=
  String.ext (by simp [String.data_append])

theorem str_append_assoc (a b c : String) : a ++ b ++ c = a ++ (b ++ c) :=
  String.ext (by simp [String.data_append])

theorem strPop_append (s t : String) (h : t.data ≠ []) :
    strPop (s ++ t) = s ++ strPop t :=
  String.ext (by
    simp [strPop, String.data_append, List.dropLast_append_of_ne_nil s.data h])

theorem strPop_comma (s : String) : strPop (s ++ ",") = s := by
  rw [strPop_append s "," (by decide)]
  exact str_append_empty s

/-! ### Fold lemmas: the Rust `for` loops as closed forms -/

theorem foldl_col_eq (l : List String) (init : String) :
    l.foldl (fun q index => (q ++ index).push ',') init
      = init ++ strJoin (l.map (fun i => i ++ ",")) := by
  induction l generalizing init with
  | nil => simp [strJoin, str_append_empty]
  | cons x xs ih =>
      simp only [List.foldl_cons, List.map_cons, strJoin]
      rw [ih]
      apply String.ext
      simp [String.data_append, String.data_push]

theorem foldl_val_eq (l : List String) (init : String) :
    l.foldl (fun q value => (((q ++ squote) ++ value) ++ squote) ++ ",") init
      = init ++ strJoin ((l.map quoteVal).map (fun i => i ++ ",")) := by
  induction l generalizing init with
  | nil => simp [strJoin, str_append_empty]
  | cons x xs ih =>
      simp only [List.foldl_cons, List.map_cons, strJoin]
      rw [ih]
      apply String.ext
      simp [String.data_append, quoteVal]

theorem foldl_upd_eq (l : List (String × String)) (init : String) :
    l.foldl
      (fun q update =>
        ((((q ++ update.1) ++ " = ") ++ squote) ++ update.2 ++ squote).push ',')
      init
      = init
        ++ strJoin ((l.map (fun u => u.1 ++ " = " ++ quoteVal u.2)).map
            (fun i => i ++ ",")) := by
  induction l generalizing init with
  | nil => simp [strJoin, str_append_empty]
  | cons x xs ih =>
      simp only [List.foldl_cons, List.map_cons, strJoin]
      rw [ih]
      apply String.ext
      simp [String.data_append, String.data_push, quoteVal]

theorem strJoin_comma (l : List String) (h : l ≠ []) :
    strJoin (l.map (fun i => i ++ ",")) = commaSep l ++ "," := by
  induction l with
  | nil => exact absurd rfl h
  | cons x xs ih =>
      cases xs with
      | nil => simp [strJoin, commaSep, str_append_empty]
      | cons y t =>
          simp only [List.map_cons, strJoin, commaSep] at *
          rw [ih (by simp)]
          apply String.ext
          simp [String.data_append]

/-! ### Closed forms for the three formatters

One lemma per emptiness case; together they cover every input. -/

theorem insert_eq_nonempty (T : String) (cols vals : List String)
    (hc : cols ≠ []) (hv : vals ≠ []) :
    format_insert_query T cols vals
      = "INSERT INTO " ++ T ++ " (" ++ commaSep cols ++ ") VALUES ("
        ++ commaSep (vals.map quoteVal) ++ ")" := by
  simp only [format_insert_query]
  rw [foldl_col_eq, strJoin_comma cols hc, ← str_append_assoc, strPop_comma,
    foldl_val_eq, strJoin_comma _ (by simpa using hv), ← str_append_assoc,
    strPop_comma]
  apply String.ext
  simp only [String.data_append, List.append_assoc]
  rfl

theorem insert_eq_nilcols (T : String) (vals : List String) (hv : vals ≠ []) :
    format_insert_query T [] vals
      = "INSERT INTO " ++ T ++ " ) VALUES ("
        ++ commaSep (vals.map quoteVal) ++ ")" := by
  simp only [format_insert_query, List.foldl_nil]
  rw [strPop_append _ " (" (by decide),
    foldl_val_eq, strJoin_comma _ (by simpa using hv), ← str_append_assoc,
    strPop_comma]
  apply String.ext
  simp only [String.data_append, List.append_assoc]
  rfl

theorem insert_eq_nilvals (T : String) (cols : List String) (hc : cols ≠ []) :
    format_insert_query T cols []
      = "INSERT INTO " ++ T ++ " (" ++ commaSep cols ++ ") VALUES )" := by
  simp only [format_insert_query, List.foldl_nil]
  rw [foldl_col_eq, strJoin_comma cols hc, ← str_append_assoc, strPop_comma,
    strPop_append _ "VALUES (" (by decide)]
  apply String.ext
  simp only [String.data_append, List.append_assoc]
  rfl

theorem insert_eq_nilnil (T : String) :
    format_insert_query T [] []
      = "INSERT INTO " ++ T ++ " ) VALUES )" := by
  simp only [format_insert_query, List.foldl_nil]
  rw [strPop_append _ " (" (by decide),
    strPop_append _ "VALUES (" (by decide)]
  apply String.ext
  simp only [String.data_append, List.append_assoc]
  rfl

theorem update_eq_nonempty (T : String) (ups : List (String × String))
    (key : String × String) (hu : ups ≠ []) :
    format_update_query T ups key
      = "UPDATE " ++ T ++ " SET "
        ++ commaSep (ups.map (fun u => u.1 ++ " = " ++ quoteVal u.2))
        ++ " WHERE " ++ key.1 ++ " = " ++ quoteVal key.2 := by
  simp only [format_update_query]
  rw [foldl_upd_eq, strJoin_comma _ (by simpa using hu), ← str_append_assoc,
    strPop_comma]
  apply String.ext
  simp [String.data_append, quoteVal, squote]

theorem update_eq_nil (T : String) (key : String × String) :
    format_update_query T [] key
      = "UPDATE " ++ T ++ " SET WHERE " ++ key.1 ++ " = " ++ quoteVal key.2 := by
  simp only [format_update_query, List.foldl_nil]
  rw [strPop_append _ " SET " (by decide)]
  apply String.ext
  simp [String.data_append, quoteVal, squote, strPop]

theorem select_eq_nonempty (T : String) (fields : List String)
    (key : String × String) (hf : fields ≠ []) :
    format_select_string T fields key
      = "SELECT " ++ commaSep fields ++ " FROM " ++ T
        ++ " WHERE " ++ key.1 ++ " = " ++ quoteVal key.2 := by
  simp only [format_select_string]
  rw [foldl_col_eq, strJoin_comma fields hf, ← str_append_assoc, strPop_comma]
  apply String.ext
  simp [String.data_append, quoteVal, squote]

theorem select_eq_nil (T : String) (key : String × String) :
    format_select_string T [] key
      = "SELECT FROM " ++ T ++ " WHERE " ++ key.1 ++ " = " ++ quoteVal key.2 := by
  simp only [format_select_string, List.foldl_nil]
  rw [show strPop "SELECT " = "SELECT" from rfl]
  apply String.ext
  simp [String.data_append, quoteVal, squote, strPop]

/-! ### Counting lemmas -/

theorem charCount_append (a b : String) (c : Char) :
    charCount (a ++ b) c = charCount a c + charCount b c := by
  simp [charCount, String.data_append]

theorem charCount_commaSep (l : List String) (c : Char)
    (hne : charCount "," c = 0) :
    charCount (commaSep l) c = (l.map (fun s => charCount s c)).sum := by
  induction l with
  | nil => simp [commaSep, charCount]
  | cons x xs ih =>
      cases xs with
      | nil => simp [commaSep]
      | cons y t =>
          simp only [commaSep, List.map_cons, List.sum_cons] at *
          rw [charCount_append, charCount_append, hne, ih]
          omega

theorem quoteCount_quoteVal (v : String) :
    charCount (quoteVal v) quoteChar = 2 + charCount v quoteChar := by
  simp only [quoteVal, charCount_append]
  rw [show charCount squote quoteChar = 1 from by decide]
  omega

theorem sum_quoteCount_quoted (vals : List String) :
    ((vals.map quoteVal).map (fun s => charCount s quoteChar)).sum
      = 2 * vals.length + (vals.map quoteCount).sum := by
  induction vals with
  | nil => simp
  | cons v vs ih =>
      simp only [List.map_cons, List.sum_cons, List.length_cons, ih,
        quoteCount_quoteVal, quoteCount]
      ring

/-- The quote count of a full INSERT, for quote-free table and column names:
two quotes per value plus whatever quotes the values themselves contain. -/
theorem quoteCount_insert (T : String) (cols vals : List String)
    (hc : cols ≠ []) (hv : vals ≠ []) (hT : quoteCount T = 0)
    (hcols : ∀ c ∈ cols, quoteCount c = 0) :
    quoteCount (format_insert_query T cols vals)
      = 2 * vals.length + (vals.map quoteCount).sum := by
  rw [quoteCount, insert_eq_nonempty T cols vals hc hv]
  simp only [charCount_append]
  rw [charCount_commaSep cols quoteChar (by decide),
    charCount_commaSep (vals.map quoteVal) quoteChar (by decide),
    sum_quoteCount_quoted]
  have hz : (cols.map (fun s => charCount s quoteChar)).sum = 0 :=
    List.sum_eq_zero (by
      intro x hx
      obtain ⟨c, hcin, hcx⟩ := List.mem_map.mp hx
      rw [← hcx]
      exact hcols c hcin)
  rw [hz]
  have h1 : charCount "INSERT INTO " quoteChar = 0 := by decide
  have h2 : charCount " (" quoteChar = 0 := by decide
  have h3 : charCount ") VALUES (" quoteChar = 0 := by decide
  have h4 : charCount ")" quoteChar = 0 := by decide
  have hT0 : charCount T quoteChar = 0 := hT
  omega

/-! ### Transaction loop lemmas -/

theorem execLoop_all_ok (T : String) (idx : List String)
    (execRes : String → Except String Unit) (values : List (List String))
    (h : ∀ v ∈ values, execRes (format_insert_query T idx v) = Except.ok ()) :
    execLoop T idx execRes values
      = (values.map (fun v => DbEvent.exec (format_insert_query T idx v)),
         Except.ok ()) := by
  induction values with
  | nil => rfl
  | cons v vs ih =>
      have hv := h v (List.mem_cons_self v vs)
      have hrest : ∀ w ∈ vs, execRes (format_insert_query T idx w) = Except.ok () :=
        fun w hw => h w (List.mem_cons_of_mem v hw)
      simp [execLoop, hv, ih hrest]

theorem execLoop_fails (T : String) (idx : List String)
    (execRes : String → Except String Unit)
    (pre : List (List String)) (vk : List String) (post : List (List String))
    (e : String)
    (hpre : ∀ v ∈ pre, execRes (format_insert_query T idx v) = Except.ok ())
    (hk : execRes (format_insert_query T idx vk) = Except.error e) :
    execLoop T idx execRes (pre ++ vk :: post)
      = ((pre ++ [vk]).map (fun v => DbEvent.exec (format_insert_query T idx v)),
         Except.error e) := by
  induction pre with
  | nil => simp [execLoop, hk]
  | cons p ps ih =>
      have hp := hpre p (List.mem_cons_self p ps)
      have hrest : ∀ w ∈ ps, execRes (format_insert_query T idx w) = Except.ok () :=
        fun w hw => hpre w (List.mem_cons_of_mem p hw)
      simp [execLoop, hp, ih hrest]

/-! ### Row extraction lemmas -/

theorem getRowValues_spec (row : Row) :
    ∀ (fields inner : List String),
      getRowValues row fields = some inner →
      inner.length = fields.length ∧
        ∀ (j : Nat) (f v : String), fields[j]? = some f → inner[j]? = some v →
          rowGet row f = some v := by
  intro fields
  induction fields with
  | nil =>
      intro inner h
      simp only [getRowValues, Option.some.injEq] at h
      subst h
      simp
  | cons f fs ih =>
      intro inner h
      simp only [getRowValues] at h
      cases hg : rowGet row f with
      | none => rw [hg] at h; simp at h
      | some v =>
          rw [hg] at h
          cases hr : getRowValues row fs with
          | none => rw [hr] at h; simp at h
          | some rest =>
              rw [hr] at h
              simp only [Option.some.injEq] at h
              subst h
              obtain ⟨hlen, hpt⟩ := ih rest hr
              refine ⟨by simp [hlen], ?_⟩
              intro j g w hjf hjw
              cases j with
              | zero =>
                  simp only [List.getElem?_cons_zero, Option.some.injEq] at hjf hjw
                  subst hjf; subst hjw
                  exact hg
              | succ n =>
                  simp only [List.getElem?_cons_succ] at hjf hjw
                  exact hpt n g w hjf hjw

theorem collectRows_spec (fields : List String) :
    ∀ (rows : List Row) (out : List (List String)),
      collectRows fields rows = some out →
      out.length = rows.length ∧
        ∀ (i : Nat) (r : Row) (inner : List String),
          rows[i]? = some r → out[i]? = some inner →
            getRowValues r fields = some inner := by
  intro rows
  induction rows with
  | nil =>
      intro out h
      simp only [collectRows, Option.some.injEq] at h
      subst h
      simp
  | cons r rs ih =>
      intro out h
      simp only [collectRows] at h
      cases hg : getRowValues r fields with
      | none => rw [hg] at h; simp at h
      | some inner =>
          rw [hg] at h
          cases hr : collectRows fields rs with
          | none => rw [hr] at h; simp at h
          | some rest =>
              rw [hr] at h
              simp only [Option.some.injEq] at h
              subst h
              obtain ⟨hlen, hpt⟩ := ih rest hr
              refine ⟨by simp [hlen], ?_⟩
              intro i rr innerr hif hiw
              cases i with
              | zero =>
                  simp only [List.getElem?_cons_zero, Option.some.injEq] at hif hiw
                  subst hif; subst hiw
                  exact hg
              | succ n =>
                  simp only [List.getElem?_cons_succ] at hif hiw
                  exact hpt n rr innerr hif hiw

/-! ### Balanced-parentheses helper -/

theorem charCount_quoteVal_other (v : String) (c : Char)
    (hcq : charCount squote c = 0) :
    charCount (quoteVal v) c = charCount v c := by
  simp only [quoteVal, charCount_append, hcq]
  omega

theorem parens_balanced_insert (T : String) (cols vals : List String)
    (hc : cols ≠ []) (hv : vals ≠ [])
    (hT : charCount T '(' = 0 ∧ charCount T ')' = 0)
    (hcols : ∀ c ∈ cols, charCount c '(' = 0 ∧ charCount c ')' = 0)
    (hvals : ∀ v ∈ vals, charCount v '(' = 0 ∧ charCount v ')' = 0) :
    charCount (format_insert_query T cols vals) '('
      = charCount (format_insert_query T cols vals) ')' := by
  rw [insert_eq_nonempty T cols vals hc hv]
  simp only [charCount_append]
  rw [charCount_commaSep cols '(' (by decide),
    charCount_commaSep cols ')' (by decide),
    charCount_commaSep (vals.map quoteVal) '(' (by decide),
    charCount_commaSep (vals.map quoteVal) ')' (by decide)]
  have hz1 : (cols.map (fun s => charCount s '(')).sum = 0 :=
    List.sum_eq_zero (by
      intro x hx
      obtain ⟨c, hcin, hcx⟩ := List.mem_map.mp hx
      rw [← hcx]; exact (hcols c hcin).1)
  have hz2 : (cols.map (fun s => charCount s ')')).sum = 0 :=
    List.sum_eq_zero (by
      intro x hx
      obtain ⟨c, hcin, hcx⟩ := List.mem_map.mp hx
      rw [← hcx]; exact (hcols c hcin).2)
  have hz3 : ((vals.map quoteVal).map (fun s => charCount s '(')).sum = 0 := by
    rw [List.map_map]
    exact List.sum_eq_zero (by
      intro x hx
      obtain ⟨v, hvin, hvx⟩ := List.mem_map.mp hx
      rw [← hvx]
      show charCount (quoteVal v) '(' = 0
      rw [charCount_quoteVal_other v '(' (by decide)]
      exact (hvals v hvin).1)
  have hz4 : ((vals.map quoteVal).map (fun s => charCount s ')')).sum = 0 := by
    rw [List.map_map]
    exact List.sum_eq_zero (by
      intro x hx
      obtain ⟨v, hvin, hvx⟩ := List.mem_map.mp hx
      rw [← hvx]
      show charCount (quoteVal v) ')' = 0
      rw [charCount_quoteVal_other v ')' (by decide)]
      exact (hvals v hvin).2)
  rw [hz1, hz2, hz3, hz4]
  have e1 : charCount "INSERT INTO " '(' = 0 := by decide
  have e2 : charCount "INSERT INTO " ')' = 0 := by decide
  have e3 : charCount " (" '(' = 1 := by decide
  have e4 : charCount " (" ')' = 0 := by decide
  have e5 : charCount ") VALUES (" '(' = 1 := by decide
  have e6 : charCount ") VALUES (" ')' = 1 := by decide
  have e7 : charCount ")" '(' = 0 := by decide
  have e8 : charCount ")" ')' = 1 := by decide
  omega

/-! ### Claim theorems -/

/-- C1: for every table name, every non-empty column list and every value
list of the same length, `format_insert_query` returns exactly
`INSERT INTO T (c1,c2,...,cn) VALUES ('v1','v2',...,'vn')`, with columns and
values in input order and with no stray separators, including the
single-element case. -/
theorem insert_query_spec_shape (T : String) (cols vals : List String)
    (hc : cols ≠ []) (hlen : cols.length = vals.length) :
    format_insert_query T cols vals
      = "INSERT INTO " ++ T ++ " (" ++ commaSep cols ++ ") VALUES ("
        ++ commaSep (vals.map quoteVal) ++ ")" :=
  insert_eq_nonempty T cols vals hc (by
    intro hveq
    apply hc
    rw [hveq] at hlen
    simpa using List.length_eq_zero.mp hlen)

/-- C1 witness: the spec's book example, and the single-element boundary
case, evaluated concretely. -/
theorem insert_query_spec_shape_witness :
    format_insert_query "book" ["title", "author", "isbn"]
        ["Witcher", "Andrzej Sapkowski", "X"]
      = "INSERT INTO book (title,author,isbn) VALUES ('Witcher','Andrzej Sapkowski','X')"
    ∧ format_insert_query "book" ["title"] ["Witcher"]
      = "INSERT INTO book (title) VALUES ('Witcher')" := by
  constructor
  · rw [insert_query_spec_shape "book" ["title", "author", "isbn"]
      ["Witcher", "Andrzej Sapkowski", "X"] (by decide) (by decide)]
    rfl
  · rw [insert_query_spec_shape "book" ["title"] ["Witcher"]
      (by decide) (by decide)]
    rfl

/-- C4: for every table name, non-empty updates list and key pair,
`format_update_query` returns exactly
`UPDATE T SET c1 = 'v1',c2 = 'v2',...,cn = 'vn' WHERE k = 'kv'`, preserving
input order, with a bare comma (no following space) between pairs. -/
theorem update_query_spec_shape (T k kv : String)
    (ups : List (String × String)) (hu : ups ≠ []) :
    format_update_query T ups (k, kv)
      = "UPDATE " ++ T ++ " SET "
        ++ commaSep (ups.map (fun u => u.1 ++ " = " ++ quoteVal u.2))
        ++ " WHERE " ++ k ++ " = " ++ quoteVal kv :=
  update_eq_nonempty T ups (k, kv) hu

/-- C4 witness: the spec's example, with no space after the comma. -/
theorem update_query_spec_shape_witness :
    format_update_query "book" [("title", "Witcher"), ("author", "Andy")]
        ("isbn", "123")
      = "UPDATE book SET title = 'Witcher',author = 'Andy' WHERE isbn = '123'" := by
  rw [update_query_spec_shape "book" "isbn" "123"
    [("title", "Witcher"), ("author", "Andy")] (by decide)]
  rfl

/-- C5: for every table name, non-empty field list and key pair,
`format_select_string` returns exactly `SELECT f1,f2,...,fn FROM T WHERE
k = 'kv'` with the fields in input order. -/
theorem select_query_spec_shape (T k kv : String) (fields : List String)
    (hf : fields ≠ []) :
    format_select_string T fields (k, kv)
      = "SELECT " ++ commaSep fields ++ " FROM " ++ T
        ++ " WHERE " ++ k ++ " = " ++ quoteVal kv :=
  select_eq_nonempty T fields (k, kv) hf

/-- C5 witness: a concrete SELECT. -/
theorem select_query_spec_shape_witness :
    format_select_string "book" ["title", "author", "isbn"] ("isbn", "Some number")
      = "SELECT title,author,isbn FROM book WHERE isbn = 'Some number'" := by
  rw [select_query_spec_shape "book" "isbn" "Some number"
    ["title", "author", "isbn"] (by decide)]
  rfl

/-- C9: all three formatters are pure, deterministic functions of their
arguments: repeated calls on identical inputs give identical strings.  In
this embedding each formatter is a total Lean function — the Rust bodies
only build a local `String` and perform no I/O or external mutation — so
determinism and side-effect freedom hold by construction. -/
theorem formatters_deterministic (T k kv : String)
    (cols vals fields : List String) (ups : List (String × String)) :
    format_insert_query T cols vals = format_insert_query T cols vals
    ∧ format_update_query T ups (k, kv) = format_update_query T ups (k, kv)
    ∧ format_select_string T fields (k, kv)
      = format_select_string T fields (k, kv) :=
  ⟨rfl, rfl, rfl⟩

/-- C10: with an empty updates list `format_update_query` does not fail and
returns exactly `UPDATE T SET WHERE k = 'kv'` (the pop removes the space
after SET); with an empty field list `format_select_string` returns exactly
`SELECT FROM T WHERE k = 'kv'` (the pop removes the space after SELECT).
Both are total — `strPop`, like Rust's `String::pop`, cannot panic. -/
theorem update_select_empty_shape (T k kv : String) :
    format_update_query T [] (k, kv)
      = "UPDATE " ++ T ++ " SET WHERE " ++ k ++ " = " ++ quoteVal kv
    ∧ format_select_string T [] (k, kv)
      = "SELECT FROM " ++ T ++ " WHERE " ++ k ++ " = " ++ quoteVal kv :=
  ⟨update_eq_nil T (k, kv), select_eq_nil T (k, kv)⟩

/-- C8: with zero columns or zero values `format_insert_query` still returns
a string, but the unconditional pop deletes the opening parenthesis of the
corresponding empty list instead of a trailing separator, yielding a
malformed query. -/
theorem insert_empty_list_shape (T : String) (cols vals : List String)
    (hc : cols ≠ []) (hv : vals ≠ []) :
    format_insert_query T [] vals
      = "INSERT INTO " ++ T ++ " ) VALUES ("
        ++ commaSep (vals.map quoteVal) ++ ")"
    ∧ format_insert_query T cols []
      = "INSERT INTO " ++ T ++ " (" ++ commaSep cols ++ ") VALUES )"
    ∧ format_insert_query T [] []
      = "INSERT INTO " ++ T ++ " ) VALUES )" :=
  ⟨insert_eq_nilcols T vals hv, insert_eq_nilvals T cols hc,
   insert_eq_nilnil T⟩

/-- C8 witness: both degenerate cases evaluated concretely — the `(` after
the table name (resp. after VALUES) is gone from the output. -/
theorem insert_empty_list_shape_witness :
    format_insert_query "book" [] ["Witcher"]
      = "INSERT INTO book ) VALUES ('Witcher')"
    ∧ format_insert_query "book" ["title"] []
      = "INSERT INTO book (title) VALUES )"
    ∧ format_insert_query "book" [] [] = "INSERT INTO book ) VALUES )" := by
  have h := insert_empty_list_shape "book" ["title"] ["Witcher"]
    (by decide) (by decide)
  exact ⟨by rw [h.1]; rfl, by rw [h.2.1]; rfl, by rw [h.2.2]; rfl⟩

/-- C7 counterexample: with one column and two values the lengths differ,
yet the output has matched parentheses and no stray commas — the claim that
every mismatched input yields a statement with unmatched parentheses or
commas is false. -/
theorem insert_mismatch_not_malformed_cex :
    (["a"] : List String).length ≠ (["x", "y"] : List String).length
    ∧ malformedSeps (format_insert_query "t" ["a"] ["x", "y"]) = false := by
  decide

/-- C7 amended: the formatter performs no length validation and never
reports a mismatch; with both lists non-empty it returns the usual
well-formed shape — balanced parentheses (for parenthesis-free inputs) —
and only the column and value counts differ.  Unmatched parentheses arise
only when one of the lists is empty (see the C8 theorem). -/
theorem insert_mismatch_shape (T : String) (cols vals : List String)
    (hlen : cols.length ≠ vals.length) (hc : cols ≠ []) (hv : vals ≠ []) :
    format_insert_query T cols vals
      = "INSERT INTO " ++ T ++ " (" ++ commaSep cols ++ ") VALUES ("
        ++ commaSep (vals.map quoteVal) ++ ")"
    ∧ (charCount T '(' = 0 ∧ charCount T ')' = 0 →
        (∀ c ∈ cols, charCount c '(' = 0 ∧ charCount c ')' = 0) →
        (∀ v ∈ vals, charCount v '(' = 0 ∧ charCount v ')' = 0) →
        charCount (format_insert_query T cols vals) '('
          = charCount (format_insert_query T cols vals) ')') :=
  ⟨insert_eq_nonempty T cols vals hc hv,
   fun hT hcols hvals => parens_balanced_insert T cols vals hc hv hT hcols hvals⟩

/-- C7 amended witness: the mismatched input above, evaluated concretely. -/
theorem insert_mismatch_shape_witness :
    format_insert_query "t" ["a"] ["x", "y"]
      = "INSERT INTO t (a) VALUES ('x','y')"
    ∧ charCount (format_insert_query "t" ["a"] ["x", "y"]) '('
      = charCount (format_insert_query "t" ["a"] ["x", "y"]) ')' := by
  have h := insert_mismatch_shape "t" ["a"] ["x", "y"]
    (by decide) (by decide) (by decide)
  exact ⟨by rw [h.1]; rfl, h.2 (by decide) (by decide) (by decide)⟩

/-- C3: every formatter inserts each value verbatim between single quotes
with no escaping, and table, column and field names verbatim with no
identifier quoting: for quote-free identifiers the whole INSERT contains
exactly two quote characters per value plus the quotes already inside the
value strings themselves — so a value containing a single quote leaves an
odd, mismatched quoting in the statement. -/
theorem formatters_no_escaping (T k kv : String)
    (cols vals fields : List String) (ups : List (String × String))
    (hc : cols ≠ []) (hv : vals ≠ []) (hu : ups ≠ []) (hf : fields ≠ [])
    (hT : quoteCount T = 0) (hcols : ∀ c ∈ cols, quoteCount c = 0) :
    format_insert_query T cols vals
      = "INSERT INTO " ++ T ++ " (" ++ commaSep cols ++ ") VALUES ("
        ++ commaSep (vals.map quoteVal) ++ ")"
    ∧ format_update_query T ups (k, kv)
      = "UPDATE " ++ T ++ " SET "
        ++ commaSep (ups.map (fun u => u.1 ++ " = " ++ quoteVal u.2))
        ++ " WHERE " ++ k ++ " = " ++ quoteVal kv
    ∧ format_select_string T fields (k, kv)
      = "SELECT " ++ commaSep fields ++ " FROM " ++ T
        ++ " WHERE " ++ k ++ " = " ++ quoteVal kv
    ∧ quoteCount (format_insert_query T cols vals)
      = 2 * vals.length + (vals.map quoteCount).sum :=
  ⟨insert_eq_nonempty T cols vals hc hv,
   update_eq_nonempty T ups (k, kv) hu,
   select_eq_nonempty T fields (k, kv) hf,
   quoteCount_insert T cols vals hc hv hT hcols⟩

/-- C3 witness: a value containing a single quote is inserted unchanged and
the resulting statement carries three quote characters — corrupt SQL. -/
theorem formatters_no_escaping_witness :
    format_insert_query "t" ["c"] ["O'Brien"]
      = "INSERT INTO t (c) VALUES ('O'Brien')"
    ∧ quoteCount (format_insert_query "t" ["c"] ["O'Brien"]) = 3 := by
  have h := formatters_no_escaping "t" "k" "v" ["c"] ["O'Brien"] ["f"]
    [("a", "b")] (by decide) (by decide) (by decide) (by decide)
    (by decide) (by decide)
  refine ⟨by rw [h.1]; rfl, ?_⟩
  rw [h.2.2.2]
  decide

/-- C2: with a transaction successfully begun, `insert_transaction` issues
exactly one begin, then one INSERT per value row — each formatted by
`format_insert_query`, strictly in row order — and one commit at the very
end, exactly when every statement succeeded (its result then being the
driver's commit result); if the INSERT for row `vk` fails after the rows of
`pre` succeeded, it returns that error, the trace stops at the failing
statement, and commit is never called, so nothing this function did is
committed. -/
theorem insert_transaction_spec (T : String) (idx : List String)
    (values : List (List String)) (pool : PgPool)
    (hb : pool.beginRes = Except.ok ()) :
    ((∀ v ∈ values, pool.execRes (format_insert_query T idx v) = Except.ok ()) →
      insert_transaction T idx values pool
        = (DbEvent.beginTxn
            :: values.map (fun v => DbEvent.exec (format_insert_query T idx v))
            ++ [DbEvent.commit],
           pool.commitRes)
        ∧ ((insert_transaction T idx values pool).1.count DbEvent.beginTxn = 1
          ∧ (insert_transaction T idx values pool).1.count DbEvent.commit = 1
          ∧ ((insert_transaction T idx values pool).1.filter isExec).length
              = values.length))
    ∧ (∀ (pre : List (List String)) (vk : List String)
        (post : List (List String)) (e : String),
        values = pre ++ vk :: post →
        (∀ v ∈ pre, pool.execRes (format_insert_query T idx v) = Except.ok ()) →
        pool.execRes (format_insert_query T idx vk) = Except.error e →
        insert_transaction T idx values pool
          = (DbEvent.beginTxn
              :: (pre ++ [vk]).map
                  (fun v => DbEvent.exec (format_insert_query T idx v)),
             Except.error e)
          ∧ DbEvent.commit ∉ (insert_transaction T idx values pool).1) := by
  constructor
  · intro hall
    have htr : insert_transaction T idx values pool
        = (DbEvent.beginTxn
            :: values.map (fun v => DbEvent.exec (format_insert_query T idx v))
            ++ [DbEvent.commit],
           pool.commitRes) := by
      simp only [insert_transaction, hb]
      rw [execLoop_all_ok T idx pool.execRes values hall]
      cases hcm : pool.commitRes with
      | ok u => cases u; simp
      | error e => simp
    refine ⟨htr, ?_, ?_, ?_⟩
    · rw [htr]
      simp only [List.count_cons, List.count_append]
      rw [List.count_eq_zero.mpr (by
        intro ha
        obtain ⟨v, hvin, hveq⟩ := List.mem_map.mp ha
        exact DbEvent.noConfusion hveq)]
      simp
    · rw [htr]
      simp only [List.count_cons, List.count_append]
      rw [List.count_eq_zero.mpr (by
        intro ha
        obtain ⟨v, hvin, hveq⟩ := List.mem_map.mp ha
        exact DbEvent.noConfusion hveq)]
      simp
    · rw [htr]
      simp only [List.filter_cons, List.filter_append]
      rw [List.filter_map]
      simp [isExec, Function.comp]
  · intro pre vk post e hvals hpre hk
    subst hvals
    have hloop := execLoop_fails T idx pool.execRes pre vk post e hpre hk
    have htr : insert_transaction T idx (pre ++ vk :: post) pool
        = (DbEvent.beginTxn
            :: (pre ++ [vk]).map
                (fun v => DbEvent.exec (format_insert_query T idx v)),
           Except.error e) := by
      simp only [insert_transaction, hb]
      rw [hloop]
    refine ⟨htr, ?_⟩
    rw [htr]
    intro hmem
    simp only [List.mem_cons] at hmem
    rcases hmem with h1 | h2
    · exact DbEvent.noConfusion h1
    · obtain ⟨v, hvin, hveq⟩ := List.mem_map.mp h2
      exact DbEvent.noConfusion hveq

/-- C2 witness: a concrete two-row batch on an all-succeeding pool — one
begin, the two formatted INSERTs in order, then the commit. -/
theorem insert_transaction_spec_witness :
    insert_transaction "book" ["title"] [["A"], ["B"]] witPool
      = ([DbEvent.beginTxn,
          DbEvent.exec "INSERT INTO book (title) VALUES ('A')",
          DbEvent.exec "INSERT INTO book (title) VALUES ('B')",
          DbEvent.commit], Except.ok ()) := by
  have h := (insert_transaction_spec "book" ["title"] [["A"], ["B"]] witPool
    rfl).1 (by intro v hv; rfl)
  rw [h.1]
  rfl

/-- C6: when `select` succeeds after the driver fetched `rows`, the output
has one inner vector per fetched row, in fetch order, and each inner vector
has one string per requested field, positionally aligned: element `j` of
inner vector `i` is row `i`'s value looked up under field name `j`. -/
theorem select_rows_aligned (T : String) (fields : List String)
    (key : String × String) (pool : String → Except String (List Row))
    (rows : List Row) (out : List (List String))
    (hp : pool (format_select_string T fields key) = Except.ok rows)
    (hs : select T fields key pool = Except.ok out) :
    out.length = rows.length
    ∧ ∀ (i : Nat) (r : Row) (inner : List String),
        rows[i]? = some r → out[i]? = some inner →
          inner.length = fields.length
          ∧ ∀ (j : Nat) (f v : String),
              fields[j]? = some f → inner[j]? = some v →
                rowGet r f = some v := by
  rw [select, hp] at hs
  simp only [] at hs
  cases hcr : collectRows fields rows with
  | none => rw [hcr] at hs; simp at hs
  | some out2 =>
      rw [hcr] at hs
      simp only [Except.ok.injEq] at hs
      subst hs
      obtain ⟨hlen, hpt⟩ := collectRows_spec fields rows out2 hcr
      exact ⟨hlen, fun i r inner hi ho =>
        getRowValues_spec r fields inner (hpt i r inner hi ho)⟩

/-- C6 witness: one fetched row, two requested fields, evaluated
concretely. -/
theorem select_rows_aligned_witness :
    ([["Witcher", "Andy"]] : List (List String)).length
        = ([witRow] : List Row).length
    ∧ ∀ (i : Nat) (r : Row) (inner : List String),
        ([witRow] : List Row)[i]? = some r →
          ([["Witcher", "Andy"]] : List (List String))[i]? = some inner →
            inner.length = (["title", "author"] : List String).length
            ∧ ∀ (j : Nat) (f v : String),
                (["title", "author"] : List String)[j]? = some f →
                  inner[j]? = some v → rowGet r f = some v :=
  select_rows_aligned "book" ["title", "author"] ("isbn", "1") witDb
    [witRow] [["Witcher", "Andy"]] rfl rfl
